import Mathlib

/-!
Verification development for the konke-ha-proxy gateway session engine
(`proxy.go`).  The Go source is shallowly embedded: Go maps become
association lists (reads of missing keys yield the zero value `""`, as in
Go), the JSON wire codec (`encoding/json` on the `Message` struct) is
modelled by an executable marshaller/parser over `List Char`, and the
side-effecting handlers become pure functions returning the new proxy
state together with the list of HTTP requests issued and log lines
printed.
-/

/-! ## Association-list model of Go string maps -/

/-- Lookup in a Go `map[string]string`: `none` models `ok = false` in the
two-result form `v, ok := m[k]`. -/
def mapLookup (m : List (String × String)) (k : String) : Option String :=
  match m with
  | [] => none
  | (k1, v) :: rest => if k1 = k then some v else mapLookup rest k

/-- Single-result Go map read `m[k]`: yields the zero value `""` when the
key is absent. -/
def mapGet (m : List (String × String)) (k : String) : String :=
  (mapLookup m k).getD ""

/-- Go map assignment `m[k] = v`. -/
def mapSet (m : List (String × String)) (k v : String) : List (String × String) :=
  match m with
  | [] => [(k, v)]
  | (k1, v1) :: rest => if k1 = k then (k1, v) :: rest else (k1, v1) :: mapSet rest k v

/-! ## JSON values

Go's `Message.Arg` is an `interface{}`; after `json.Unmarshal` it holds a
JSON value (string, object, number, boolean, null or array).  We model the
decoded value directly.  Numbers are restricted to integers: the only
numeric field the protocol uses is the `int64` request id, and Go's
decoder rejects fractional numbers for it.  Go marshals map keys in
sorted order; an `obj` association list records the fields in the order
they are serialized. -/

inductive JsonValue where
  | null
  | bool (b : Bool)
  | num (n : Int)
  | str (s : String)
  | arr (elems : List JsonValue)
  | obj (fields : List (String × JsonValue))

mutual

/-- Boolean equality on JSON values (structural). -/
def JsonValue.beq : JsonValue → JsonValue → Bool
  | .null, .null => true
  | .bool a, .bool b => a = b
  | .num a, .num b => a = b
  | .str a, .str b => a = b
  | .arr as, .arr bs => JsonValue.beqList as bs
  | .obj as, .obj bs => JsonValue.beqFields as bs
  | _, _ => false

/-- Boolean equality on JSON value lists. -/
def JsonValue.beqList : List JsonValue → List JsonValue → Bool
  | [], [] => true
  | a :: as, b :: bs => JsonValue.beq a b && JsonValue.beqList as bs
  | _, _ => false

/-- Boolean equality on JSON object field lists. -/
def JsonValue.beqFields : List (String × JsonValue) → List (String × JsonValue) → Bool
  | [], [] => true
  | a :: as, b :: bs => (a.1 = b.1 : Bool) && JsonValue.beq a.2 b.2 && JsonValue.beqFields as bs
  | _, _ => false

end

mutual

theorem JsonValue.beq_iff : ∀ a b : JsonValue, JsonValue.beq a b = true ↔ a = b
  | .null, b => by cases b <;> simp [JsonValue.beq]
  | .bool a, b => by cases b <;> simp [JsonValue.beq]
  | .num a, b => by cases b <;> simp [JsonValue.beq]
  | .str a, b => by cases b <;> simp [JsonValue.beq]
  | .arr as, b => by
    cases b <;> simp [JsonValue.beq]
    exact JsonValue.beqList_iff as _
  | .obj as, b => by
    cases b <;> simp [JsonValue.beq]
    exact JsonValue.beqFields_iff as _

theorem JsonValue.beqList_iff : ∀ as bs : List JsonValue,
    JsonValue.beqList as bs = true ↔ as = bs
  | [], bs => by cases bs <;> simp [JsonValue.beqList]
  | a :: as, bs => by
    cases bs with
    | nil => simp [JsonValue.beqList]
    | cons b bs =>
      simp [JsonValue.beqList, JsonValue.beq_iff a b, JsonValue.beqList_iff as bs]

theorem JsonValue.beqFields_iff : ∀ as bs : List (String × JsonValue),
    JsonValue.beqFields as bs = true ↔ as = bs
  | [], bs => by cases bs <;> simp [JsonValue.beqFields]
  | a :: as, bs => by
    cases bs with
    | nil => simp [JsonValue.beqFields]
    | cons b bs =>
      have h2 := JsonValue.beq_iff a.2 b.2
      have h3 := JsonValue.beqFields_iff as bs
      cases a; cases b
      simp [JsonValue.beqFields, h2, h3, and_assoc, Prod.ext_iff]

end

instance : DecidableEq JsonValue := fun a b =>
  decidable_of_iff (JsonValue.beq a b = true) (JsonValue.beq_iff a b)

/-! ## The gateway message and the proxy state -/

/-- The Go `Message` struct (JSON tags `nodeid`, `opcode`, `arg`,
`requester`, `reqId,omitempty`, `status,omitempty`). -/
structure Message where
  nodeid : String
  opcode : String
  arg : JsonValue
  requester : String
  reqId : Int
  status : String
deriving DecidableEq

/-- The configuration fields the session engine reads: the
home-automation sink coordinates and the two device-registry partitions
(`devices.curtains`, `devices.lights`). -/
structure Config where
  haHost : String
  haPort : Nat
  haToken : String
  curtains : List (String × String)
  lights : List (String × String)
deriving DecidableEq

/-- Mutable fields of the Go `Proxy` struct: the `connected` flag,
whether `conn` is non-nil, the Device State Map `devices` and the Entity
State Map `entity`. -/
structure ProxyState where
  connected : Bool
  connPresent : Bool
  devices : List (String × String)
  entity : List (String × String)
deriving DecidableEq

/-- An HTTP request issued to the home-automation sink. -/
structure HttpRequest where
  method : String
  url : String
  headers : List (String × String)
  body : String
deriving DecidableEq

/-- Outcome of the synchronous `client.Do(req)` call: a transport error
or an HTTP status code. -/
inductive HttpOutcome where
  | netError
  | status (code : Nat)
deriving DecidableEq

/-! ## State Reconciler and SWITCH handler -/

/-- Fuel-driven accumulator loop for decimal rendering; the fuel is an
upper bound on the number remaining, so recursion is structural and the
kernel can evaluate it. -/
def natCharsAux : Nat → Nat → List Char → List Char
  | 0, _, acc => acc
  | fuel + 1, n, acc =>
    if n = 0 then acc
    else natCharsAux fuel (n / 10) (Char.ofNat (48 + n % 10) :: acc)

/-- Decimal rendering of a natural number (Go `fmt.Sprintf("%d", n)` and
the digits `encoding/json` emits for an integer). -/
def natChars (n : Nat) : List Char :=
  if n = 0 then ['0'] else natCharsAux n n []

/-! ## JSON marshalling (model of `encoding/json.Marshal` on `Message`)

Strings are escaped the way Go's encoder does: `"`, `\`, `\n`, `\r`,
`\t` get two-character escapes, the remaining control characters become
`\u00XX`, and `<`, `>`, `&`, U+2028, U+2029 are HTML-escaped to `\uXXXX`
sequences.  Everything else passes through unchanged. -/

/-- Lowercase hex digit, as emitted by Go's encoder. -/
def hexChar (n : Nat) : Char :=
  if n < 10 then Char.ofNat (48 + n) else Char.ofNat (87 + n)

/-- Escape one character of a JSON string, following Go's
`encoding/json` encoder (HTML escaping on, its default). -/
def escapeChar (c : Char) : List Char :=
  if c = '"' then ['\\', '"']
  else if c = '\\' then ['\\', '\\']
  else if c = '\n' then ['\\', 'n']
  else if c = '\r' then ['\\', 'r']
  else if c = '\t' then ['\\', 't']
  else if c.toNat < 32 then ['\\', 'u', '0', '0', hexChar (c.toNat / 16), hexChar (c.toNat % 16)]
  else if c = '<' then ['\\', 'u', '0', '0', '3', 'c']
  else if c = '>' then ['\\', 'u', '0', '0', '3', 'e']
  else if c = '&' then ['\\', 'u', '0', '0', '2', '6']
  else if c.toNat = 0x2028 then ['\\', 'u', '2', '0', '2', '8']
  else if c.toNat = 0x2029 then ['\\', 'u', '2', '0', '2', '9']
  else [c]

/-- Escape every character of a string body. -/
def strEscape : List Char → List Char
  | [] => []
  | c :: cs => escapeChar c ++ strEscape cs

/-- A JSON string literal: quote, escaped body, quote. -/
def marshalString (s : String) : List Char :=
  '"' :: (strEscape s.data ++ ['"'])

/-- A JSON integer literal (decimal, `-` sign for negatives). -/
def marshalInt : Int → List Char
  | Int.ofNat m => natChars m
  | Int.negSucc m => '-' :: natChars (m + 1)

mutual

/-- Serialize a JSON value to its canonical (whitespace-free) text. -/
def marshalJson : JsonValue → List Char
  | .null => ['n', 'u', 'l', 'l']
  | .bool b => if b then ['t', 'r', 'u', 'e'] else ['f', 'a', 'l', 's', 'e']
  | .num n => marshalInt n
  | .str s => marshalString s
  | .arr [] => ['[', ']']
  | .arr (e :: es) => '[' :: (marshalElems e es ++ [']'])
  | .obj [] => ['{', '}']
  | .obj (f :: fs) => '{' :: (marshalFields f fs ++ ['}'])
termination_by v => sizeOf v
decreasing_by all_goals (simp_wf; try omega)

/-- Comma-separated serialization of a nonempty array tail. -/
def marshalElems : JsonValue → List JsonValue → List Char
  | e, [] => marshalJson e
  | e, e2 :: es => marshalJson e ++ (',' :: marshalElems e2 es)
termination_by e es => sizeOf e + sizeOf es
decreasing_by all_goals (simp_wf; try omega)

/-- Comma-separated serialization of a nonempty field list. -/
def marshalFields : (String × JsonValue) → List (String × JsonValue) → List Char
  | (k, v), [] => marshalString k ++ (':' :: marshalJson v)
  | (k, v), f2 :: fs =>
    (marshalString k ++ (':' :: marshalJson v)) ++ (',' :: marshalFields f2 fs)
termination_by f fs => sizeOf f + sizeOf fs
decreasing_by all_goals (simp_wf; try omega)

end

/-- The JSON object fields `encoding/json.Marshal` emits for a `Message`
value, in struct order, with the two `omitempty` fields dropped at their
zero values. -/
def msgFields (m : Message) : List (String × JsonValue) :=
  [("nodeid", JsonValue.str m.nodeid), ("opcode", JsonValue.str m.opcode),
   ("arg", m.arg), ("requester", JsonValue.str m.requester)]
    ++ (if m.reqId ≠ 0 then [("reqId", JsonValue.num m.reqId)] else [])
    ++ (if m.status ≠ "" then [("status", JsonValue.str m.status)] else [])

/-- `json.Marshal(msg)` — the frame body. -/
def marshalMessage (m : Message) : List Char :=
  marshalJson (JsonValue.obj (msgFields m))

/-- `sendMessage` (proxy.go lines 122-134): the bytes written to the
socket are the JSON body wrapped as `!<body>$`. -/
def sendMessage (m : Message) : List Char :=
  '!' :: (marshalMessage m ++ ['$'])

/-! ## JSON parsing (model of `encoding/json.Unmarshal` into `Message`)

The parser is fuel-indexed (the fuel bounds nesting depth plus element
count) so that recursion is structural and the kernel can run it.  It
follows Go's grammar for the fragment of JSON the model covers: the four
whitespace characters, the three keywords, strings with the standard
escapes, integers without leading zeros, arrays and objects.  Two
modelling restrictions against Go: fractional/exponent number literals
are rejected (the protocol's only numeric field is an `int64`, for which
Go also rejects them), and a `\uXXXX` surrogate half decodes to U+FFFD
without pairing. -/

/-- Skip JSON whitespace. -/
def skipWs : List Char → List Char
  | [] => []
  | c :: cs => if c = ' ' ∨ c = '\t' ∨ c = '\n' ∨ c = '\r' then skipWs cs else c :: cs

/-- Value of one hex digit. -/
def hexVal (c : Char) : Option Nat :=
  if '0' ≤ c ∧ c ≤ '9' then some (c.toNat - 48)
  else if 'a' ≤ c ∧ c ≤ 'f' then some (c.toNat - 87)
  else if 'A' ≤ c ∧ c ≤ 'F' then some (c.toNat - 55)
  else none

/-- Decode a `\uXXXX` code point; invalid scalar values (surrogate
halves) become U+FFFD as in Go. -/
def uChar (n : Nat) : Char :=
  if Nat.isValidChar n then Char.ofNat n else Char.ofNat 0xFFFD

/-- The single-character escapes JSON accepts. -/
def simpleEsc (e : Char) : Option Char :=
  if e = '"' then some '"'
  else if e = '\\' then some '\\'
  else if e = '/' then some '/'
  else if e = 'b' then some (Char.ofNat 8)
  else if e = 'f' then some (Char.ofNat 12)
  else if e = 'n' then some '\n'
  else if e = 'r' then some '\r'
  else if e = 't' then some '\t'
  else none

/-- Parse the body of a string literal after the opening quote, up to
and including the closing quote; unescaped control characters are
rejected as in Go. -/
def parseStringBody : List Char → Option (List Char × List Char)
  | [] => none
  | c :: cs =>
    if c = '"' then some ([], cs)
    else if c = '\\' then
      match cs with
      | [] => none
      | e :: cs1 =>
        if e = 'u' then
          match cs1 with
          | h1 :: h2 :: h3 :: h4 :: cs2 =>
            match hexVal h1, hexVal h2, hexVal h3, hexVal h4 with
            | some a, some b, some hc, some d =>
              (parseStringBody cs2).map fun p =>
                (uChar ((((a * 16 + b) * 16 + hc) * 16) + d) :: p.1, p.2)
            | _, _, _, _ => none
          | _ => none
        else
          match simpleEsc e with
          | some ec => (parseStringBody cs1).map fun p => (ec :: p.1, p.2)
          | none => none
    else if c.toNat < 32 then none
    else (parseStringBody cs).map fun p => (c :: p.1, p.2)

/-- Parse an unsigned integer literal: a nonempty digit run with no
leading zero (Go's JSON grammar). -/
def parseNumChars (cs : List Char) : Option (Nat × List Char) :=
  let ds := cs.takeWhile Char.isDigit
  let rest := cs.dropWhile Char.isDigit
  match ds with
  | [] => none
  | [d] => some (d.toNat - 48, rest)
  | d :: _ :: _ => if d = '0' then none else some (ds.foldl (fun a c => a * 10 + (c.toNat - 48)) 0, rest)

/-- Consume an expected literal continuation (the tail of a JSON
keyword); mismatch rejects the value. -/
def dropLit : List Char → List Char → Option (List Char)
  | [], cs => some cs
  | _ :: _, [] => none
  | l :: ls, c :: cs => if c = l then dropLit ls cs else none

mutual

/-- Parse one JSON value; the result carries the unconsumed suffix. -/
def parseVal : Nat → List Char → Option (JsonValue × List Char)
  | 0, _ => none
  | fuel + 1, cs =>
    match skipWs cs with
    | [] => none
    | c :: rest =>
      if c = 'n' then (dropLit ['u', 'l', 'l'] rest).map fun r => (.null, r)
      else if c = 't' then (dropLit ['r', 'u', 'e'] rest).map fun r => (.bool true, r)
      else if c = 'f' then (dropLit ['a', 'l', 's', 'e'] rest).map fun r => (.bool false, r)
      else if c = '"' then (parseStringBody rest).map fun p => (.str (String.mk p.1), p.2)
      else if c = '[' then
        match skipWs rest with
        | [] => none
        | c2 :: rest2 =>
          if c2 = ']' then some (.arr [], rest2)
          else (parseElems fuel (c2 :: rest2)).map fun p => (.arr p.1, p.2)
      else if c = '{' then
        match skipWs rest with
        | [] => none
        | c2 :: rest2 =>
          if c2 = '}' then some (.obj [], rest2)
          else (parseFields fuel (c2 :: rest2)).map fun p => (.obj p.1, p.2)
      else if c = '-' then (parseNumChars rest).map fun p => (.num (-(p.1 : Int)), p.2)
      else (parseNumChars (c :: rest)).map fun p => (.num (p.1 : Int), p.2)

/-- Parse the elements of a nonempty array, consuming the closing `]`. -/
def parseElems : Nat → List Char → Option (List JsonValue × List Char)
  | 0, _ => none
  | fuel + 1, cs =>
    (parseVal fuel cs).bind fun p =>
      match skipWs p.2 with
      | [] => none
      | c :: rest =>
        if c = ',' then (parseElems fuel rest).map fun q => (p.1 :: q.1, q.2)
        else if c = ']' then some ([p.1], rest)
        else none

/-- Parse the fields of a nonempty object, consuming the closing brace. -/
def parseFields : Nat → List Char → Option (List (String × JsonValue) × List Char)
  | 0, _ => none
  | fuel + 1, cs =>
    match skipWs cs with
    | [] => none
    | c :: rest =>
      if c = '"' then
        (parseStringBody rest).bind fun pk =>
          match skipWs pk.2 with
          | [] => none
          | c2 :: rest2 =>
            if c2 = ':' then
              (parseVal fuel rest2).bind fun pv =>
                match skipWs pv.2 with
                | [] => none
                | c3 :: rest3 =>
                  if c3 = ',' then (parseFields fuel rest3).map fun q =>
                      ((String.mk pk.1, pv.1) :: q.1, q.2)
                  else if c3 = '}' then some ([(String.mk pk.1, pv.1)], rest3)
                  else none
            else none
      else none

end

/-- Head-character guard used by the number round-trip lemmas: the
unparsed remainder must not begin with a digit, so that a serialized
integer is not extended by the following text. -/
def noDigitHead : List Char → Bool
  | [] => true
  | c :: _ => !c.isDigit

mutual

/-- Fuel sufficient for `parseVal` on the serialization of a value. -/
def jfuel : JsonValue → Nat
  | .null => 1
  | .bool _ => 1
  | .num _ => 1
  | .str _ => 1
  | .arr [] => 1
  | .arr (e :: es) => 1 + jfuelElems e es
  | .obj [] => 1
  | .obj (f :: fs) => 1 + jfuelFields f fs
termination_by v => sizeOf v
decreasing_by all_goals (simp_wf; try omega)

/-- Fuel sufficient for `parseElems` on a serialized element list. -/
def jfuelElems : JsonValue → List JsonValue → Nat
  | e, [] => 1 + jfuel e
  | e, e2 :: es => 1 + jfuel e + jfuelElems e2 es
termination_by e es => sizeOf e + sizeOf es
decreasing_by all_goals (simp_wf; try omega)

/-- Fuel sufficient for `parseFields` on a serialized field list. -/
def jfuelFields : (String × JsonValue) → List (String × JsonValue) → Nat
  | (_, v), [] => 1 + jfuel v
  | (_, v), f2 :: fs => 1 + jfuel v + jfuelFields f2 fs
termination_by f fs => sizeOf f + sizeOf fs
decreasing_by all_goals (simp_wf; try omega)

end

/-- Last-wins field lookup, the way Go's decoder treats duplicate keys. -/
def getField (fields : List (String × JsonValue)) (key : String) : Option JsonValue :=
  fields.foldl (fun acc f => if f.1 = key then some f.2 else acc) none

/-- Decode a JSON value into a Go `string` struct field: absent or
`null` leaves the zero value, a string sets it, anything else is a type
error failing the whole `Unmarshal`. -/
def jsonToStrField : Option JsonValue → Option String
  | none => some ""
  | some JsonValue.null => some ""
  | some (JsonValue.str s) => some s
  | some _ => none

/-- Decode a JSON value into a Go `int64` struct field. -/
def jsonToIntField : Option JsonValue → Option Int
  | none => some 0
  | some JsonValue.null => some 0
  | some (JsonValue.num n) => some n
  | some _ => none

/-- Build a `Message` from a decoded top-level object, as
`json.Unmarshal` fills the struct: unknown keys are ignored, missing
keys leave zero values, mistyped known fields fail. -/
def buildMessage (fields : List (String × JsonValue)) : Option Message :=
  match jsonToStrField (getField fields "nodeid"),
        jsonToStrField (getField fields "opcode"),
        jsonToStrField (getField fields "requester"),
        jsonToStrField (getField fields "status"),
        jsonToIntField (getField fields "reqId") with
  | some nodeid, some opcode, some requester, some status, some reqId =>
    some { nodeid := nodeid, opcode := opcode,
           arg := (getField fields "arg").getD JsonValue.null,
           requester := requester, reqId := reqId, status := status }
  | _, _, _, _, _ => none

/-- `json.Unmarshal(jsonStr, &msg)` with success reported as `some`: the
input must be one JSON object followed only by whitespace, and its known
fields must decode into the struct. -/
def unmarshalMessage (cs : List Char) : Option Message :=
  match parseVal (cs.length + 1) cs with
  | some (JsonValue.obj fields, rest) =>
    if skipWs rest = [] then buildMessage fields else none
  | _ => none

/-- Go `strings.Split(buffer, sep)` for a one-character separator. -/
def splitOnChar (sep : Char) : List Char → List (List Char)
  | [] => [[]]
  | c :: cs =>
    if c = sep then [] :: splitOnChar sep cs
    else
      match splitOnChar sep cs with
      | [] => [[c]]
      | g :: gs => (c :: g) :: gs

/-- `parseMessages` (proxy.go lines 158-173): split the buffer on `$`,
keep the fragments that start with `!` and whose remainder unmarshals,
in the order they appear. -/
def parseMessages (buffer : List Char) : List Message :=
  (splitOnChar '$' buffer).foldl
    (fun msgs part =>
      match part with
      | '!' :: jsonStr =>
        match unmarshalMessage jsonStr with
        | some msg => msgs ++ [msg]
        | none => msgs
      | _ => msgs)
    []

/-- Acceptance predicate stated by the spec for one fragment: accepted
iff it begins with the leading sentinel `!` and its remainder parses as
a JSON message body.  This definition follows the spec's words; the
characterization theorem compares `parseMessages` against it. -/
def specFrameAccept : List Char → Option Message
  | '!' :: jsonStr => unmarshalMessage jsonStr
  | _ => none

/-- The request built by `updateHomeAssistant` (proxy.go lines 231-243):
URL, bearer-token and content-type headers, JSON body
`json.Marshal(map[string]string ... state ...)`. -/
def updateHomeAssistant (cfg : Config) (entityID state : String) : HttpRequest :=
  { method := "POST"
    url := "http://" ++ cfg.haHost ++ ":" ++ String.mk (natChars cfg.haPort)
        ++ "/api/states/" ++ entityID
    headers := [("Authorization", "Bearer " ++ cfg.haToken),
                ("Content-Type", "application/json")]
    body := String.mk (marshalJson (JsonValue.obj [("state", JsonValue.str state)])) }

/-- The log line produced from the HTTP response (proxy.go lines
244-256); the outcome is only logged, never acted upon. -/
def haResponseLog (entityID state : String) (oc : HttpOutcome) : String :=
  match oc with
  | .netError => "Error updating Home Assistant"
  | .status code =>
    if code = 200 ∨ code = 201 then
      "Successfully updated entity " ++ entityID ++ " to state " ++ state
    else "Failed to update Home Assistant"

/-- The State Reconciler, inlined at proxy.go lines 222-228: compare the
normalized state with the Entity State Map, and when it differs, record
it and call `updateHomeAssistant` with the `"switch."`-prefixed entity
id.  Results: new state, requests issued, log lines. -/
def reconcileEntity (cfg : Config) (st : ProxyState) (entityID state : String)
    (oc : HttpOutcome) : ProxyState × List HttpRequest × List String :=
  if mapGet st.entity entityID = state then (st, [], [])
  else ({ st with entity := mapSet st.entity entityID state },
        [updateHomeAssistant cfg ("switch." ++ entityID) state],
        [haResponseLog ("switch." ++ entityID) state oc])

/-- Raw-token normalization, the `switch arg` statement at proxy.go lines
201-208. -/
def normState (arg : String) : Option String :=
  if arg = "ON" ∨ arg = "OPEN" then some "on"
  else if arg = "OFF" ∨ arg = "CLOSE" then some "off"
  else none

/-- Device Registry resolution (proxy.go lines 210-216): the curtain
partition is consulted first, then the light partition; `""` (the Go zero
value of `entityID`) means no mapping. -/
def resolveEntity (cfg : Config) (nodeID : String) : String :=
  if (mapLookup cfg.curtains nodeID).isSome then mapGet cfg.curtains nodeID
  else if (mapLookup cfg.lights nodeID).isSome then mapGet cfg.lights nodeID
  else ""

/-- `handleSwitch` (proxy.go lines 191-229).  A non-string argument
returns immediately; otherwise the raw argument is stored in the Device
State Map, the token is normalized (unrecognized tokens return), the node
is resolved in the registry (unmapped nodes return) and the pair is
handed to the reconciler. -/
def handleSwitch (cfg : Config) (st : ProxyState) (msg : Message)
    (oc : HttpOutcome) : ProxyState × List HttpRequest × List String :=
  match msg.arg with
  | JsonValue.str arg =>
    let st1 := { st with devices := mapSet st.devices msg.nodeid arg }
    match normState arg with
    | none => (st1, [], [])
    | some state =>
      let entityID := resolveEntity cfg msg.nodeid
      if entityID = "" then (st1, [], [])
      else reconcileEntity cfg st1 entityID state oc
  | _ => (st, [], [])

/-! ## Message router and the remaining handlers -/

/-- `handleHeartbeat` (proxy.go lines 183-185): log only. -/
def handleHeartbeat (_msg : Message) : String := "收到心跳响应"

/-- `handleSync` (proxy.go lines 187-189): log only. -/
def handleSync (_msg : Message) : String := "Received sync response"

/-- `handleLogin` (proxy.go lines 259-265): log only. -/
def handleLogin (msg : Message) : String :=
  if msg.status = "success" then "Login successful" else "Login failed"

/-- `handleMessage` (proxy.go lines 175-181) with the dispatch table
built in `NewProxy` (lines 82-87): four recognized opcodes, everything
else logged and dropped. -/
def handleMessage (cfg : Config) (st : ProxyState) (msg : Message)
    (oc : HttpOutcome) : ProxyState × List HttpRequest × List String :=
  if msg.opcode = "CCU_HB" then (st, [], [handleHeartbeat msg])
  else if msg.opcode = "SYNC_INFO" then (st, [], [handleSync msg])
  else if msg.opcode = "SWITCH" then handleSwitch cfg st msg oc
  else if msg.opcode = "LOGIN" then (st, [], [handleLogin msg])
  else (st, [], ["Unhandled message"])

/-! ## Disconnect handling -/

/-- Observable side effects of `handleDisconnect`. -/
inductive DisconnectEffect where
  | closeConn
  | sleepAndReconnect
deriving DecidableEq

/-- `handleDisconnect` (proxy.go lines 285-301): under the mutex, an
already-disconnected session returns immediately; otherwise the flag is
cleared, a non-nil socket is closed, and after the fixed sleep a
reconnect attempt starts. -/
def handleDisconnect (st : ProxyState) : ProxyState × List DisconnectEffect :=
  if st.connected = false then (st, [])
  else ({ st with connected := false },
        (if st.connPresent then [DisconnectEffect.closeConn] else [])
          ++ [DisconnectEffect.sleepAndReconnect])

/-! ## Command Gateway (REST front end, proxy.go lines 368-394 and 397-423) -/

/-- `SendCommand(nodeId, rawArg)`: the POST handlers build a SWITCH
message with requester `HJ_Server` and a time-derived request id, write
its frame to the session (`proxy.sendMessage(msg)`), and optimistically
store the raw argument in the Device State Map.  The result is the new
state together with the bytes put on the wire. -/
def sendCommand (st : ProxyState) (nodeID arg : String) (reqID : Int) :
    ProxyState × List Char :=
  let msg : Message :=
    { nodeid := nodeID, opcode := "SWITCH", arg := JsonValue.str arg,
      requester := "HJ_Server", reqId := reqID, status := "" }
  ({ st with devices := mapSet st.devices nodeID arg }, sendMessage msg)

/-- `ReadState(nodeId)`: the GET handlers read `proxy.devices[id]`; a
never-observed node yields the Go zero value `""`. -/
def readState (st : ProxyState) (nodeID : String) : String :=
  mapGet st.devices nodeID

/-- Example configuration used by concrete witnesses: node `7` is a
curtain, node `5` is a light. -/
def exCfg : Config :=
  { haHost := "ha", haPort := 8123, haToken := "secret",
    curtains := [("7", "curtain_a")], lights := [("5", "light1")] }

/-- Example session state with empty state maps. -/
def exSt : ProxyState :=
  { connected := true, connPresent := true, devices := [], entity := [] }

/-! ## Helper lemmas -/

theorem mapLookup_mapSet_self (m : List (String × String)) (k v : String) :
    mapLookup (mapSet m k v) k = some v := by
  induction m with
  | nil => simp [mapSet, mapLookup]
  | cons hd tl ih =>
    obtain ⟨k1, v1⟩ := hd
    by_cases h : k1 = k <;> simp [mapSet, mapLookup, h, ih]

theorem mapGet_mapSet_self (m : List (String × String)) (k v : String) :
    mapGet (mapSet m k v) k = v := by
  simp [mapGet, mapLookup_mapSet_self]

/-! ## Claim theorems (non-codec claims) -/

/-- C1 counterexample: a SWITCH message with the unrecognized raw token
`"FOO"` is not fully inert — `handleSwitch` stores the raw argument into
the Device State Map before the normalization switch rejects it, so the
devices map changes. -/
theorem C1_counterexample :
    ¬ ((handleSwitch exCfg exSt
        { nodeid := "5", opcode := "SWITCH", arg := JsonValue.str "FOO",
          requester := "HJ_Server", reqId := 0, status := "" } HttpOutcome.netError).1.devices
      = exSt.devices) := by
  decide

/-- C1 (amended): for a SWITCH message whose string argument is not one
of the four recognized tokens, the raw argument is recorded in the
Device State Map for the node, and nothing else happens — the Entity
State Map is unchanged and no downstream call is issued; the recognized
tokens normalize as `ON`/`OPEN` to `on` and `OFF`/`CLOSE` to `off`. -/
theorem C1_switch_unrecognized_records_raw :
    (∀ (cfg : Config) (st : ProxyState) (msg : Message) (arg : String) (oc : HttpOutcome),
      msg.arg = JsonValue.str arg →
      arg ∉ (["ON", "OPEN", "OFF", "CLOSE"] : List String) →
      handleSwitch cfg st msg oc =
        ({ st with devices := mapSet st.devices msg.nodeid arg }, [], []))
    ∧ normState "ON" = some "on" ∧ normState "OPEN" = some "on"
    ∧ normState "OFF" = some "off" ∧ normState "CLOSE" = some "off" := by
  refine ⟨?_, by decide, by decide, by decide, by decide⟩
  intro cfg st msg arg oc harg hmem
  simp only [List.mem_cons, List.mem_singleton, not_or] at hmem
  obtain ⟨h1, h2, h3, h4⟩ := hmem
  simp [handleSwitch, harg, normState, h1, h2, h3, h4]

/-- C1 witness: the amended theorem applied to the `"FOO"` message. -/
theorem C1_witness :
    handleSwitch exCfg exSt
      { nodeid := "5", opcode := "SWITCH", arg := JsonValue.str "FOO",
        requester := "HJ_Server", reqId := 0, status := "" } HttpOutcome.netError
      = ({ exSt with devices := mapSet exSt.devices "5" "FOO" }, [], []) :=
  C1_switch_unrecognized_records_raw.1 exCfg exSt
    { nodeid := "5", opcode := "SWITCH", arg := JsonValue.str "FOO",
      requester := "HJ_Server", reqId := 0, status := "" }
    "FOO" HttpOutcome.netError rfl (by decide)

/-- C2: the reconciler is idempotent — when the Entity State Map already
holds the normalized state, reconciling is a no-op (state unchanged, no
request); consequently two consecutive reconciliations of the same pair
issue at most one downstream request. -/
theorem C2_reconcile_idempotent :
    (∀ (cfg : Config) (st : ProxyState) (E S : String) (oc : HttpOutcome),
      mapGet st.entity E = S → reconcileEntity cfg st E S oc = (st, [], []))
    ∧ (∀ (cfg : Config) (st : ProxyState) (E S : String) (oc1 oc2 : HttpOutcome),
      (reconcileEntity cfg st E S oc1).2.1.length
        + (reconcileEntity cfg (reconcileEntity cfg st E S oc1).1 E S oc2).2.1.length ≤ 1) := by
  constructor
  · intro cfg st E S oc h
    simp [reconcileEntity, h]
  · intro cfg st E S oc1 oc2
    by_cases h : mapGet st.entity E = S
    · simp [reconcileEntity, h]
    · simp [reconcileEntity, h, mapGet_mapSet_self]

/-- C2 witness: reconciling `("light1", "on")` when the map already
holds `"on"` is a no-op. -/
theorem C2_witness :
    reconcileEntity exCfg { exSt with entity := [("light1", "on")] } "light1" "on"
      HttpOutcome.netError = ({ exSt with entity := [("light1", "on")] }, [], []) :=
  C2_reconcile_idempotent.1 exCfg { exSt with entity := [("light1", "on")] } "light1" "on"
    HttpOutcome.netError (by decide)

/-- C3: `SendCommand` optimistically records the raw argument, so a
`ReadState` on the same node immediately afterwards returns it. -/
theorem C3_sendCommand_optimistic :
    ∀ (st : ProxyState) (nodeID arg : String) (reqID : Int),
      readState (sendCommand st nodeID arg reqID).1 nodeID = arg := by
  intro st n a r
  simp [sendCommand, readState, mapGet_mapSet_self]

/-- C4 counterexample: the reconciler's request for entity id `light1`
goes to `/api/states/switch.light1`, not to the unmodified
`/api/states/light1` the claim states. -/
theorem C4_counterexample :
    ((handleSwitch exCfg exSt
        { nodeid := "5", opcode := "SWITCH", arg := JsonValue.str "ON",
          requester := "HJ_Server", reqId := 0, status := "" } HttpOutcome.netError).2.1.map
        HttpRequest.url = ["http://ha:8123/api/states/switch.light1"])
    ∧ "http://ha:8123/api/states/switch.light1" ≠ "http://ha:8123/api/states/light1" := by
  decide

/-- C4 (amended): when the reconciler pushes a changed state for entity
id `E`, it issues exactly one request: a POST to
`/api/states/switch.<E>` on the configured host and port, with bearer
and content-type headers and JSON body with the single `state` field. -/
theorem C4_reconcile_request :
    ∀ (cfg : Config) (st : ProxyState) (E S : String) (oc : HttpOutcome),
      mapGet st.entity E ≠ S →
      ∃ r : HttpRequest,
        (reconcileEntity cfg st E S oc).2.1 = [r]
        ∧ r.method = "POST"
        ∧ r.url = "http://" ++ cfg.haHost ++ ":" ++ String.mk (natChars cfg.haPort)
            ++ "/api/states/switch." ++ E
        ∧ r.headers = [("Authorization", "Bearer " ++ cfg.haToken),
                       ("Content-Type", "application/json")]
        ∧ r.body = String.mk (marshalJson (JsonValue.obj [("state", JsonValue.str S)])) := by
  intro cfg st E S oc h
  refine ⟨updateHomeAssistant cfg ("switch." ++ E) S, ?_, rfl, ?_, rfl, rfl⟩
  · simp [reconcileEntity, h]
  · simp only [updateHomeAssistant]
    have lit : ("/api/states/" ++ "switch." : String) = "/api/states/switch." := by decide
    rw [← String.append_assoc, String.append_assoc _ "/api/states/" "switch.", lit]

/-- C4 witness: the amended request-shape theorem at a concrete changed
state. -/
theorem C4_witness :
    ∃ r : HttpRequest,
      (reconcileEntity exCfg exSt "light1" "on" HttpOutcome.netError).2.1 = [r]
      ∧ r.method = "POST"
      ∧ r.url = "http://" ++ exCfg.haHost ++ ":" ++ String.mk (natChars exCfg.haPort)
          ++ "/api/states/switch." ++ "light1"
      ∧ r.headers = [("Authorization", "Bearer " ++ exCfg.haToken),
                     ("Content-Type", "application/json")]
      ∧ r.body = String.mk (marshalJson (JsonValue.obj [("state", JsonValue.str "on")])) :=
  C4_reconcile_request exCfg exSt "light1" "on" HttpOutcome.netError (by decide)

/-- C6: a node id present in the curtain partition resolves to the
curtain's entity id (the curtain partition is consulted first), and a
SWITCH report for a node id present in neither partition leaves the
Entity State Map unchanged and issues no downstream call. -/
theorem C6_registry_resolution :
    (∀ (cfg : Config) (n e : String),
      mapLookup cfg.curtains n = some e → resolveEntity cfg n = e)
    ∧ (∀ (cfg : Config) (st : ProxyState) (msg : Message) (oc : HttpOutcome),
      mapLookup cfg.curtains msg.nodeid = none → mapLookup cfg.lights msg.nodeid = none →
      (handleSwitch cfg st msg oc).1.entity = st.entity
        ∧ (handleSwitch cfg st msg oc).2.1 = []) := by
  constructor
  · intro cfg n e h
    simp [resolveEntity, h, mapGet]
  · intro cfg st msg oc hc hl
    cases harg : msg.arg <;> simp [handleSwitch, harg]
    case str arg =>
      cases hn : normState arg <;> simp [hn]
      simp [resolveEntity, hc, hl]

/-- C6 witness: node `7` is in the curtain partition of the example
registry and resolves to its entry. -/
theorem C6_witness : resolveEntity exCfg "7" = "curtain_a" :=
  C6_registry_resolution.1 exCfg "7" "curtain_a" (by decide)

/-- C7: after reconciling a changed state, the Entity State Map holds
the new state and exactly one request was issued, for every HTTP
outcome — the in-memory record is not rolled back on failure and the
call is not retried. -/
theorem C7_no_rollback_no_retry :
    ∀ (cfg : Config) (st : ProxyState) (E S : String) (oc : HttpOutcome),
      mapGet st.entity E ≠ S →
      mapGet ((reconcileEntity cfg st E S oc).1).entity E = S
        ∧ (reconcileEntity cfg st E S oc).2.1.length = 1 := by
  intro cfg st E S oc h
  simp [reconcileEntity, h, mapGet_mapSet_self]

/-- C7 witness: the theorem at a concrete changed state with a failing
outcome. -/
theorem C7_witness :
    mapGet ((reconcileEntity exCfg exSt "light1" "on" HttpOutcome.netError).1).entity "light1"
        = "on"
      ∧ (reconcileEntity exCfg exSt "light1" "on" HttpOutcome.netError).2.1.length = 1 :=
  C7_no_rollback_no_retry exCfg exSt "light1" "on" HttpOutcome.netError (by decide)

/-- C8: a message whose opcode is not one of the four recognized ones
leaves the proxy state (both maps) unchanged and issues no request. -/
theorem C8_unknown_opcode_inert :
    ∀ (cfg : Config) (st : ProxyState) (msg : Message) (oc : HttpOutcome),
      msg.opcode ∉ (["CCU_HB", "SYNC_INFO", "SWITCH", "LOGIN"] : List String) →
      (handleMessage cfg st msg oc).1 = st ∧ (handleMessage cfg st msg oc).2.1 = [] := by
  intro cfg st msg oc h
  simp only [List.mem_cons, List.mem_singleton, not_or] at h
  obtain ⟨h1, h2, h3, h4⟩ := h
  simp [handleMessage, h1, h2, h3, h4]

/-- C8 witness: a `QUERY`-opcode message is inert. -/
theorem C8_witness :
    (handleMessage exCfg exSt
        { nodeid := "1", opcode := "QUERY", arg := JsonValue.str "*",
          requester := "HJ_Server", reqId := 1, status := "" } HttpOutcome.netError).1 = exSt
      ∧ (handleMessage exCfg exSt
        { nodeid := "1", opcode := "QUERY", arg := JsonValue.str "*",
          requester := "HJ_Server", reqId := 1, status := "" } HttpOutcome.netError).2.1 = [] :=
  C8_unknown_opcode_inert exCfg exSt
    { nodeid := "1", opcode := "QUERY", arg := JsonValue.str "*",
      requester := "HJ_Server", reqId := 1, status := "" } HttpOutcome.netError (by decide)

/-- C10: `handleDisconnect` on an already-disconnected session is a
no-op: the flag stays false, no close, no reconnect, maps untouched. -/
theorem C10_disconnect_idempotent :
    ∀ st : ProxyState, st.connected = false → handleDisconnect st = (st, []) := by
  intro st h
  simp [handleDisconnect, h]

/-- C10 witness: the theorem at a concrete disconnected state. -/
theorem C10_witness :
    handleDisconnect { exSt with connected := false }
      = ({ exSt with connected := false }, []) :=
  C10_disconnect_idempotent { exSt with connected := false } (by decide)

/-! ## Codec round-trip lemmas -/

theorem dropLit_append (lit cs : List Char) : dropLit lit (lit ++ cs) = some cs := by
  induction lit with
  | nil => rfl
  | cons l ls ih => simp [dropLit, ih]

theorem skipWs_cons (c : Char) (l : List Char)
    (h1 : c ≠ ' ') (h2 : c ≠ '\t') (h3 : c ≠ '\n') (h4 : c ≠ '\r') :
    skipWs (c :: l) = c :: l := by
  simp [skipWs, h1, h2, h3, h4]

theorem takeWhile_digits (xs ys : List Char) (hx : ∀ x ∈ xs, x.isDigit = true)
    (hy : noDigitHead ys = true) :
    (xs ++ ys).takeWhile Char.isDigit = xs ∧ (xs ++ ys).dropWhile Char.isDigit = ys := by
  induction xs with
  | nil =>
    cases ys with
    | nil => simp
    | cons y ys =>
      simp only [noDigitHead, Bool.not_eq_true'] at hy
      simp [List.takeWhile, List.dropWhile, hy]
  | cons x xs ih =>
    have hpx := hx x (by simp)
    have ih2 := ih fun a ha => hx a (by simp [ha])
    simp [List.takeWhile, List.dropWhile, hpx, ih2.1, ih2.2]

theorem digitChar_facts (d : Nat) (h : d < 10) :
    (Char.ofNat (48 + d)).toNat = 48 + d ∧ (Char.ofNat (48 + d)).isDigit = true := by
  interval_cases d <;> exact ⟨by decide, by decide⟩

theorem isDigit_ne (c : Char) (h : c.isDigit = true) :
    c ≠ ' ' ∧ c ≠ '\t' ∧ c ≠ '\n' ∧ c ≠ '\r' ∧ c ≠ 'n' ∧ c ≠ 't' ∧ c ≠ 'f'
      ∧ c ≠ '"' ∧ c ≠ '[' ∧ c ≠ '{' ∧ c ≠ '-' ∧ c ≠ ']' ∧ c ≠ '}' := by
  refine ⟨?_, ?_, ?_, ?_, ?_, ?_, ?_, ?_, ?_, ?_, ?_, ?_, ?_⟩ <;>
    (intro hc; rw [hc] at h; exact absurd h (by decide))

theorem natCharsAux_eq (fuel : Nat) : ∀ n acc, n ≤ fuel →
    natCharsAux fuel n acc
      = ((Nat.digits 10 n).reverse.map fun d => Char.ofNat (48 + d)) ++ acc := by
  induction fuel with
  | zero =>
    intro n acc h
    interval_cases n
    simp [natCharsAux]
  | succ fuel ih =>
    intro n acc h
    by_cases h0 : n = 0
    · subst h0; simp [natCharsAux]
    · have hlt : n / 10 ≤ fuel := by
        have := Nat.div_lt_self (Nat.pos_of_ne_zero h0) (by norm_num : 1 < 10)
        omega
      rw [show natCharsAux (fuel + 1) n acc
            = natCharsAux fuel (n / 10) (Char.ofNat (48 + n % 10) :: acc) from by
          simp [natCharsAux, h0]]
      rw [ih (n / 10) _ hlt,
          Nat.digits_def' (by norm_num : 1 < 10) (Nat.pos_of_ne_zero h0)]
      simp

theorem natChars_eq (n : Nat) (h : n ≠ 0) :
    natChars n = (Nat.digits 10 n).reverse.map fun d => Char.ofNat (48 + d) := by
  rw [natChars, if_neg h, natCharsAux_eq n n [] le_rfl]
  simp

theorem natChars_digits (n : Nat) : ∀ c ∈ natChars n, c.isDigit = true := by
  by_cases h : n = 0
  · subst h
    intro c hc
    simp [natChars] at hc
    subst hc
    decide
  · rw [natChars_eq n h]
    intro c hc
    simp only [List.mem_map, List.mem_reverse] at hc
    obtain ⟨d, hd, rfl⟩ := hc
    exact (digitChar_facts d (Nat.digits_lt_base (by norm_num) hd)).2

theorem natChars_ne_nil (n : Nat) : natChars n ≠ [] := by
  by_cases h : n = 0
  · subst h; simp [natChars]
  · rw [natChars_eq n h]
    simp [Nat.digits_ne_nil_iff_ne_zero.mpr h]

theorem foldl_digits (L : List Nat) (hL : ∀ d ∈ L, d < 10) :
    ((L.reverse.map fun d => Char.ofNat (48 + d)).foldl
        (fun a c => a * 10 + (c.toNat - 48)) 0)
      = Nat.ofDigits 10 L := by
  induction L with
  | nil => simp [Nat.ofDigits]
  | cons d L ih =>
    have hd : d < 10 := hL d (by simp)
    have hL2 : ∀ x ∈ L, x < 10 := fun x hx => hL x (by simp [hx])
    simp only [List.reverse_cons, List.map_append, List.foldl_append, ih hL2,
      Nat.ofDigits_cons, List.map_cons, List.map_nil, List.foldl_cons, List.foldl_nil,
      (digitChar_facts d hd).1]
    omega

theorem digitsVal_natChars (n : Nat) :
    (natChars n).foldl (fun a c => a * 10 + (c.toNat - 48)) 0 = n := by
  by_cases h : n = 0
  · subst h; simp [natChars]
  · rw [natChars_eq n h,
        foldl_digits _ fun d hd => Nat.digits_lt_base (by norm_num) hd,
        Nat.ofDigits_digits]

theorem hexVal_hexChar (n : Nat) (h : n < 16) : hexVal (hexChar n) = some n := by
  interval_cases n <;> decide

theorem uChar_toNat (c : Char) (h : c.toNat < 55296) : uChar c.toNat = c := by
  rw [uChar, if_pos (Or.inl h : Nat.isValidChar c.toNat)]
  exact Char.ofNat_toNat c


theorem parseStringBody_quote (X : List Char) :
    parseStringBody ('"' :: X) = some ([], X) := by
  rw [parseStringBody.eq_def]
  simp

theorem parseStringBody_simple (e ec : Char) (hu : e ≠ 'u') (he : simpleEsc e = some ec)
    (X : List Char) :
    parseStringBody ('\\' :: e :: X) = (parseStringBody X).map fun p => (ec :: p.1, p.2) := by
  rw [parseStringBody.eq_def]
  simp [hu, he]

theorem parseStringBody_u (x1 x2 x3 x4 : Char) (a b d1 d2 : Nat)
    (h1 : hexVal x1 = some a) (h2 : hexVal x2 = some b)
    (h3 : hexVal x3 = some d1) (h4 : hexVal x4 = some d2) (X : List Char) :
    parseStringBody ('\\' :: 'u' :: x1 :: x2 :: x3 :: x4 :: X)
      = (parseStringBody X).map
          fun p => (uChar ((((a * 16 + b) * 16 + d1) * 16) + d2) :: p.1, p.2) := by
  rw [parseStringBody.eq_def]
  simp [h1, h2, h3, h4]

theorem parseStringBody_plain (c : Char) (h1 : c ≠ '"') (h2 : c ≠ '\\')
    (h3 : ¬ c.toNat < 32) (X : List Char) :
    parseStringBody (c :: X) = (parseStringBody X).map fun p => (c :: p.1, p.2) := by
  rw [parseStringBody.eq_def]
  simp [h1, h2, h3]

theorem parseStringBody_escape (s : List Char) (rest : List Char) :
    parseStringBody (strEscape s ++ ('"' :: rest)) = some (s, rest) := by
  induction s with
  | nil => simpa [strEscape] using parseStringBody_quote rest
  | cons c s ih =>
    show parseStringBody ((escapeChar c ++ strEscape s) ++ ('"' :: rest)) = some (c :: s, rest)
    rw [List.append_assoc]
    by_cases h1 : c = '"'
    · subst h1
      rw [show escapeChar '"' = ['\\', '"'] from by decide]
      rw [show (['\\', '"'] : List Char) ++ (strEscape s ++ '"' :: rest)
            = '\\' :: '"' :: (strEscape s ++ '"' :: rest) from rfl]
      rw [parseStringBody_simple '"' '"' (by decide) (by decide), ih]
      rfl
    · by_cases h2 : c = '\\'
      · subst h2
        rw [show escapeChar '\\' = ['\\', '\\'] from by decide]
        rw [show (['\\', '\\'] : List Char) ++ (strEscape s ++ '"' :: rest)
              = '\\' :: '\\' :: (strEscape s ++ '"' :: rest) from rfl]
        rw [parseStringBody_simple '\\' '\\' (by decide) (by decide), ih]
        rfl
      · by_cases h3 : c = '\n'
        · subst h3
          rw [show escapeChar '\n' = ['\\', 'n'] from by decide]
          rw [show (['\\', 'n'] : List Char) ++ (strEscape s ++ '"' :: rest)
                = '\\' :: 'n' :: (strEscape s ++ '"' :: rest) from rfl]
          rw [parseStringBody_simple 'n' '\n' (by decide) (by decide), ih]
          rfl
        · by_cases h4 : c = '\r'
          · subst h4
            rw [show escapeChar '\r' = ['\\', 'r'] from by decide]
            rw [show (['\\', 'r'] : List Char) ++ (strEscape s ++ '"' :: rest)
                  = '\\' :: 'r' :: (strEscape s ++ '"' :: rest) from rfl]
            rw [parseStringBody_simple 'r' '\r' (by decide) (by decide), ih]
            rfl
          · by_cases h5 : c = '\t'
            · subst h5
              rw [show escapeChar '\t' = ['\\', 't'] from by decide]
              rw [show (['\\', 't'] : List Char) ++ (strEscape s ++ '"' :: rest)
                    = '\\' :: 't' :: (strEscape s ++ '"' :: rest) from rfl]
              rw [parseStringBody_simple 't' '\t' (by decide) (by decide), ih]
              rfl
            · by_cases h6 : c.toNat < 32
              · rw [show escapeChar c
                      = ['\\', 'u', '0', '0', hexChar (c.toNat / 16), hexChar (c.toNat % 16)]
                    from by simp [escapeChar, h1, h2, h3, h4, h5, h6]]
                rw [show (['\\', 'u', '0', '0', hexChar (c.toNat / 16), hexChar (c.toNat % 16)]
                        : List Char) ++ (strEscape s ++ '"' :: rest)
                      = '\\' :: 'u' :: '0' :: '0' :: hexChar (c.toNat / 16)
                          :: hexChar (c.toNat % 16) :: (strEscape s ++ '"' :: rest) from rfl]
                rw [parseStringBody_u _ _ _ _ 0 0 (c.toNat / 16) (c.toNat % 16)
                      (by decide) (by decide)
                      (hexVal_hexChar _ (by omega)) (hexVal_hexChar _ (by omega)), ih]
                rw [show ((((0 * 16 + 0) * 16 + c.toNat / 16) * 16) + c.toNat % 16)
                      = c.toNat from by omega]
                rw [uChar_toNat c (by omega)]
                rfl
              · by_cases h7 : c = '<'
                · subst h7
                  rw [show escapeChar '<' = ['\\', 'u', '0', '0', '3', 'c'] from by decide]
                  rw [show (['\\', 'u', '0', '0', '3', 'c'] : List Char)
                          ++ (strEscape s ++ '"' :: rest)
                        = '\\' :: 'u' :: '0' :: '0' :: '3' :: 'c'
                            :: (strEscape s ++ '"' :: rest) from rfl]
                  rw [parseStringBody_u _ _ _ _ 0 0 3 12
                        (by decide) (by decide) (by decide) (by decide), ih]
                  rw [show uChar ((((0 * 16 + 0) * 16 + 3) * 16) + 12) = '<' from by decide]
                  rfl
                · by_cases h8 : c = '>'
                  · subst h8
                    rw [show escapeChar '>' = ['\\', 'u', '0', '0', '3', 'e'] from by decide]
                    rw [show (['\\', 'u', '0', '0', '3', 'e'] : List Char)
                            ++ (strEscape s ++ '"' :: rest)
                          = '\\' :: 'u' :: '0' :: '0' :: '3' :: 'e'
                              :: (strEscape s ++ '"' :: rest) from rfl]
                    rw [parseStringBody_u _ _ _ _ 0 0 3 14
                          (by decide) (by decide) (by decide) (by decide), ih]
                    rw [show uChar ((((0 * 16 + 0) * 16 + 3) * 16) + 14) = '>' from by decide]
                    rfl
                  · by_cases h9 : c = '&'
                    · subst h9
                      rw [show escapeChar '&' = ['\\', 'u', '0', '0', '2', '6'] from by decide]
                      rw [show (['\\', 'u', '0', '0', '2', '6'] : List Char)
                              ++ (strEscape s ++ '"' :: rest)
                            = '\\' :: 'u' :: '0' :: '0' :: '2' :: '6'
                                :: (strEscape s ++ '"' :: rest) from rfl]
                      rw [parseStringBody_u _ _ _ _ 0 0 2 6
                            (by decide) (by decide) (by decide) (by decide), ih]
                      rw [show uChar ((((0 * 16 + 0) * 16 + 2) * 16) + 6) = '&' from by decide]
                      rfl
                    · by_cases h10 : c.toNat = 0x2028
                      · have hc : c = Char.ofNat 0x2028 := by
                          rw [← Char.ofNat_toNat c, h10]
                        subst hc
                        rw [show escapeChar (Char.ofNat 0x2028)
                              = ['\\', 'u', '2', '0', '2', '8'] from by decide]
                        rw [show (['\\', 'u', '2', '0', '2', '8'] : List Char)
                                ++ (strEscape s ++ '"' :: rest)
                              = '\\' :: 'u' :: '2' :: '0' :: '2' :: '8'
                                  :: (strEscape s ++ '"' :: rest) from rfl]
                        rw [parseStringBody_u _ _ _ _ 2 0 2 8
                              (by decide) (by decide) (by decide) (by decide), ih]
                        rw [show uChar ((((2 * 16 + 0) * 16 + 2) * 16) + 8)
                              = Char.ofNat 0x2028 from by decide]
                        rfl
                      · by_cases h11 : c.toNat = 0x2029
                        · have hc : c = Char.ofNat 0x2029 := by
                            rw [← Char.ofNat_toNat c, h11]
                          subst hc
                          rw [show escapeChar (Char.ofNat 0x2029)
                                = ['\\', 'u', '2', '0', '2', '9'] from by decide]
                          rw [show (['\\', 'u', '2', '0', '2', '9'] : List Char)
                                  ++ (strEscape s ++ '"' :: rest)
                                = '\\' :: 'u' :: '2' :: '0' :: '2' :: '9'
                                    :: (strEscape s ++ '"' :: rest) from rfl]
                          rw [parseStringBody_u _ _ _ _ 2 0 2 9
                                (by decide) (by decide) (by decide) (by decide), ih]
                          rw [show uChar ((((2 * 16 + 0) * 16 + 2) * 16) + 9)
                                = Char.ofNat 0x2029 from by decide]
                          rfl
                        · rw [show escapeChar c = [c] from by
                              simp [escapeChar, h1, h2, h3, h4, h5, h6, h7, h8, h9, h10, h11]]
                          rw [show ([c] : List Char) ++ (strEscape s ++ '"' :: rest)
                                = c :: (strEscape s ++ '"' :: rest) from rfl]
                          rw [parseStringBody_plain c h1 h2 h6, ih]
                          rfl

theorem parseNumChars_natChars (n : Nat) (rest : List Char)
    (hrest : noDigitHead rest = true) :
    parseNumChars (natChars n ++ rest) = some (n, rest) := by
  obtain ⟨htake, hdrop⟩ := takeWhile_digits (natChars n) rest (natChars_digits n) hrest
  have hval := digitsVal_natChars n
  rw [parseNumChars.eq_def]
  simp only [htake, hdrop]
  cases hnc : natChars n with
  | nil => exact absurd hnc (natChars_ne_nil n)
  | cons d t =>
    cases t with
    | nil =>
      rw [hnc] at hval
      simp only [List.foldl_cons, List.foldl_nil, Nat.zero_mul, Nat.zero_add] at hval
      simp [hval]
    | cons d2 t2 =>
      have hn0 : n ≠ 0 := by
        intro h0
        rw [h0] at hnc
        simp [natChars] at hnc
      have hrv := natChars_eq n hn0
      rw [hnc] at hrv
      have hd0 : d ≠ '0' := by
        cases hrev : (Nat.digits 10 n).reverse with
        | nil => rw [hrev] at hrv; simp at hrv
        | cons g gs =>
          rw [hrev] at hrv
          simp only [List.map_cons, List.cons.injEq] at hrv
          have hgmem : g ∈ Nat.digits 10 n := by
            rw [← List.mem_reverse, hrev]
            simp
          have hg10 : g < 10 := Nat.digits_lt_base (by norm_num) hgmem
          have hglast : (Nat.digits 10 n).getLast? = some g := by
            rw [← List.head?_reverse, hrev]
            rfl
          have hgne : g ≠ 0 := by
            intro hg0
            have hne : Nat.digits 10 n ≠ [] := Nat.digits_ne_nil_iff_ne_zero.mpr hn0
            have hlast := Nat.getLast_digit_ne_zero 10 hn0
            rw [List.getLast?_eq_getLast _ hne] at hglast
            have hgl : (Nat.digits 10 n).getLast hne = g := Option.some_inj.mp hglast
            exact hlast (hgl.trans hg0)
          intro hdeq
          have : (Char.ofNat (48 + g)).toNat = ('0' : Char).toNat := by
            rw [← hrv.1, hdeq]
          rw [(digitChar_facts g hg10).1] at this
          have : 48 + g = 48 := this
          omega
      rw [hnc] at hval
      simp [hd0, hval]

theorem marshalJson_head (v : JsonValue) :
    ∃ c t, marshalJson v = c :: t
      ∧ c ≠ ' ' ∧ c ≠ '\t' ∧ c ≠ '\n' ∧ c ≠ '\r' ∧ c ≠ ']' := by
  cases v with
  | null =>
    exact ⟨'n', ['u', 'l', 'l'], by simp [marshalJson],
      by decide, by decide, by decide, by decide, by decide⟩
  | bool b =>
    cases b
    · exact ⟨'f', ['a', 'l', 's', 'e'], by simp [marshalJson],
        by decide, by decide, by decide, by decide, by decide⟩
    · exact ⟨'t', ['r', 'u', 'e'], by simp [marshalJson],
        by decide, by decide, by decide, by decide, by decide⟩
  | num n =>
    cases n with
    | ofNat m =>
      cases hnc : natChars m with
      | nil => exact absurd hnc (natChars_ne_nil m)
      | cons d t =>
        have hd : d.isDigit = true := natChars_digits m d (by rw [hnc]; simp)
        obtain ⟨w1, w2, w3, w4, _, _, _, _, _, _, _, w12, _⟩ := isDigit_ne d hd
        exact ⟨d, t, by simp [marshalJson, marshalInt, hnc], w1, w2, w3, w4, w12⟩
    | negSucc m =>
      exact ⟨'-', natChars (m + 1), by simp [marshalJson, marshalInt],
        by decide, by decide, by decide, by decide, by decide⟩
  | str s =>
    exact ⟨'"', strEscape s.data ++ ['"'], by simp [marshalJson, marshalString],
      by decide, by decide, by decide, by decide, by decide⟩
  | arr es =>
    cases es with
    | nil =>
      exact ⟨'[', [']'], by simp [marshalJson],
        by decide, by decide, by decide, by decide, by decide⟩
    | cons e es =>
      exact ⟨'[', marshalElems e es ++ [']'], by simp [marshalJson],
        by decide, by decide, by decide, by decide, by decide⟩
  | obj fs =>
    cases fs with
    | nil =>
      exact ⟨'{', ['}'], by simp [marshalJson],
        by decide, by decide, by decide, by decide, by decide⟩
    | cons f fs =>
      exact ⟨'{', marshalFields f fs ++ ['}'], by simp [marshalJson],
        by decide, by decide, by decide, by decide, by decide⟩

theorem marshalElems_head (e : JsonValue) (es : List JsonValue) :
    ∃ c t, marshalElems e es = c :: t
      ∧ c ≠ ' ' ∧ c ≠ '\t' ∧ c ≠ '\n' ∧ c ≠ '\r' ∧ c ≠ ']' := by
  obtain ⟨c, t, hm, p1, p2, p3, p4, p5⟩ := marshalJson_head e
  cases es with
  | nil => exact ⟨c, t, by simp [marshalElems, hm], p1, p2, p3, p4, p5⟩
  | cons e2 es2 =>
    exact ⟨c, t ++ (',' :: marshalElems e2 es2), by simp [marshalElems, hm], p1, p2, p3, p4, p5⟩

theorem marshalFields_head (f : String × JsonValue) (fs : List (String × JsonValue)) :
    ∃ t, marshalFields f fs = '"' :: t := by
  obtain ⟨k, v⟩ := f
  cases fs with
  | nil =>
    exact ⟨(strEscape k.data ++ ['"']) ++ (':' :: marshalJson v),
      by simp [marshalFields, marshalString]⟩
  | cons f2 fs2 =>
    exact ⟨(strEscape k.data ++ ['"']) ++ ((':' :: marshalJson v)
        ++ (',' :: marshalFields f2 fs2)),
      by simp [marshalFields, marshalString]⟩

theorem jfuel_pos (v : JsonValue) : 1 ≤ jfuel v := by
  cases v with
  | null => simp [jfuel]
  | bool b => simp [jfuel]
  | num n => simp [jfuel]
  | str s => simp [jfuel]
  | arr es => cases es <;> simp [jfuel]
  | obj fs => cases fs <;> simp [jfuel]

mutual

theorem jfuel_le_len : ∀ v : JsonValue, jfuel v ≤ (marshalJson v).length
  | .null => by simp [jfuel, marshalJson]
  | .bool b => by cases b <;> simp [jfuel, marshalJson]
  | .num n => by
    cases n with
    | ofNat m =>
      have h := natChars_ne_nil m
      have : 1 ≤ (natChars m).length := List.length_pos.mpr h
      simpa [jfuel, marshalJson, marshalInt] using this
    | negSucc m => simp [jfuel, marshalJson, marshalInt]
  | .str s => by simp [jfuel, marshalJson, marshalString]
  | .arr [] => by simp [jfuel, marshalJson]
  | .arr (e :: es) => by
    have h := jfuelElems_le_len e es
    simp only [jfuel, marshalJson, List.length_cons, List.length_append, List.length_singleton]
    omega
  | .obj [] => by simp [jfuel, marshalJson]
  | .obj (f :: fs) => by
    have h := jfuelFields_le_len f fs
    simp only [jfuel, marshalJson, List.length_cons, List.length_append, List.length_singleton]
    omega
termination_by v => sizeOf v
decreasing_by all_goals (simp_wf; try omega)

theorem jfuelElems_le_len : ∀ (e : JsonValue) (es : List JsonValue),
    jfuelElems e es ≤ (marshalElems e es).length + 1
  | e, [] => by
    have h := jfuel_le_len e
    simp only [jfuelElems, marshalElems]
    omega
  | e, e2 :: es => by
    have h1 := jfuel_le_len e
    have h2 := jfuelElems_le_len e2 es
    simp only [jfuelElems, marshalElems, List.length_append, List.length_cons]
    omega
termination_by e es => sizeOf e + sizeOf es
decreasing_by all_goals (simp_wf; try omega)

theorem jfuelFields_le_len : ∀ (f : String × JsonValue) (fs : List (String × JsonValue)),
    jfuelFields f fs ≤ (marshalFields f fs).length + 1
  | (k, v), [] => by
    have h := jfuel_le_len v
    simp only [jfuelFields, marshalFields, List.length_append, List.length_cons]
    omega
  | (k, v), f2 :: fs => by
    have h1 := jfuel_le_len v
    have h2 := jfuelFields_le_len f2 fs
    simp only [jfuelFields, marshalFields, List.length_append, List.length_cons]
    omega
termination_by f fs => sizeOf f + sizeOf fs
decreasing_by all_goals (simp_wf; try omega)

end

theorem parse_marshal : ∀ fuel : Nat,
    (∀ (v : JsonValue) (rest : List Char), jfuel v ≤ fuel → noDigitHead rest = true →
      parseVal fuel (marshalJson v ++ rest) = some (v, rest))
    ∧ (∀ (e : JsonValue) (es : List JsonValue) (rest : List Char), jfuelElems e es ≤ fuel →
      parseElems fuel (marshalElems e es ++ (']' :: rest)) = some (e :: es, rest))
    ∧ (∀ (f : String × JsonValue) (fs : List (String × JsonValue)) (rest : List Char),
      jfuelFields f fs ≤ fuel →
      parseFields fuel (marshalFields f fs ++ ('}' :: rest)) = some (f :: fs, rest)) := by
  intro fuel
  induction fuel using Nat.strong_induction_on with
  | _ fuel ih =>
  refine ⟨?_, ?_, ?_⟩
  · intro v rest hf hrest
    have hp := jfuel_pos v
    obtain ⟨f, rfl⟩ : ∃ f, fuel = f + 1 := ⟨fuel - 1, by omega⟩
    cases v with
    | null =>
      rw [show marshalJson JsonValue.null ++ rest = 'n' :: 'u' :: 'l' :: 'l' :: rest from by
        simp [marshalJson]]
      unfold parseVal
      simp [skipWs, dropLit]
    | bool b =>
      cases b
      · rw [show marshalJson (JsonValue.bool false) ++ rest
            = 'f' :: 'a' :: 'l' :: 's' :: 'e' :: rest from by simp [marshalJson]]
        unfold parseVal
        simp [skipWs, dropLit]
      · rw [show marshalJson (JsonValue.bool true) ++ rest
            = 't' :: 'r' :: 'u' :: 'e' :: rest from by simp [marshalJson]]
        unfold parseVal
        simp [skipWs, dropLit]
    | num n =>
      cases n with
      | ofNat m =>
        cases hnc : natChars m with
        | nil => exact absurd hnc (natChars_ne_nil m)
        | cons d t =>
          have hd : d.isDigit = true := natChars_digits m d (by rw [hnc]; simp)
          obtain ⟨w1, w2, w3, w4, w5, w6, w7, w8, w9, w10, w11, w12, w13⟩ := isDigit_ne d hd
          rw [show marshalJson (JsonValue.num (Int.ofNat m)) ++ rest = d :: (t ++ rest) from by
            simp [marshalJson, marshalInt, hnc]]
          unfold parseVal
          rw [skipWs_cons d _ w1 w2 w3 w4]
          simp only [w5, w6, w7, w8, w9, w10, w11, if_false, reduceIte, ite_false]
          rw [show d :: (t ++ rest) = natChars m ++ rest from by simp [hnc]]
          rw [parseNumChars_natChars m rest hrest]
          rfl
      | negSucc m =>
        rw [show marshalJson (JsonValue.num (Int.negSucc m)) ++ rest
            = '-' :: (natChars (m + 1) ++ rest) from by simp [marshalJson, marshalInt]]
        unfold parseVal
        rw [skipWs_cons '-' _ (by decide) (by decide) (by decide) (by decide)]
        simp only [reduceIte]
        rw [parseNumChars_natChars (m + 1) rest hrest]
        simp [Int.negSucc_eq]
    | str s =>
      rw [show marshalJson (JsonValue.str s) ++ rest
          = '"' :: (strEscape s.data ++ ('"' :: rest)) from by simp [marshalJson, marshalString]]
      unfold parseVal
      rw [skipWs_cons '"' _ (by decide) (by decide) (by decide) (by decide)]
      simp only [reduceIte]
      rw [parseStringBody_escape s.data rest]
      rfl
    | arr es =>
      cases es with
      | nil =>
        rw [show marshalJson (JsonValue.arr []) ++ rest = '[' :: ']' :: rest from by
          simp [marshalJson]]
        unfold parseVal
        simp [skipWs]
      | cons e es =>
        obtain ⟨c2, t2, hm2, q1, q2, q3, q4, q5⟩ := marshalElems_head e es
        have hfe : jfuelElems e es ≤ f := by
          simp only [jfuel] at hf
          omega
        have hE := (ih f (by omega)).2.1 e es rest hfe
        rw [show marshalJson (JsonValue.arr (e :: es)) ++ rest
            = '[' :: (marshalElems e es ++ (']' :: rest)) from by simp [marshalJson]]
        unfold parseVal
        rw [skipWs_cons '[' _ (by decide) (by decide) (by decide) (by decide)]
        simp only [reduceIte]
        rw [show marshalElems e es ++ (']' :: rest) = c2 :: (t2 ++ (']' :: rest)) from by
          simp [hm2]]
        rw [skipWs_cons c2 _ q1 q2 q3 q4]
        simp only [q5, if_false, reduceIte, ite_false]
        rw [show c2 :: (t2 ++ (']' :: rest)) = marshalElems e es ++ (']' :: rest) from by
          simp [hm2]]
        rw [hE]
        rfl
    | obj fs =>
      cases fs with
      | nil =>
        rw [show marshalJson (JsonValue.obj []) ++ rest = '{' :: '}' :: rest from by
          simp [marshalJson]]
        unfold parseVal
        simp [skipWs]
      | cons f1 fs =>
        obtain ⟨t2, hm2⟩ := marshalFields_head f1 fs
        have hfe : jfuelFields f1 fs ≤ f := by
          simp only [jfuel] at hf
          omega
        have hF := (ih f (by omega)).2.2 f1 fs rest hfe
        rw [show marshalJson (JsonValue.obj (f1 :: fs)) ++ rest
            = '{' :: (marshalFields f1 fs ++ ('}' :: rest)) from by simp [marshalJson]]
        unfold parseVal
        rw [skipWs_cons '{' _ (by decide) (by decide) (by decide) (by decide)]
        simp only [reduceIte]
        rw [show marshalFields f1 fs ++ ('}' :: rest) = '"' :: (t2 ++ ('}' :: rest)) from by
          simp [hm2]]
        rw [skipWs_cons '"' _ (by decide) (by decide) (by decide) (by decide)]
        simp only [reduceIte]
        rw [show ('"' : Char) :: (t2 ++ ('}' :: rest)) = marshalFields f1 fs ++ ('}' :: rest)
          from by simp [hm2]]
        rw [hF]
        rfl
  · intro e es rest hf
    have hp : 1 ≤ jfuelElems e es := by cases es <;> (simp only [jfuelElems]; omega)
    obtain ⟨f, rfl⟩ : ∃ f, fuel = f + 1 := ⟨fuel - 1, by omega⟩
    cases es with
    | nil =>
      have hfe : jfuel e ≤ f := by
        simp only [jfuelElems] at hf
        omega
      have hV := (ih f (by omega)).1 e (']' :: rest) hfe (by rfl)
      rw [show marshalElems e [] ++ (']' :: rest) = marshalJson e ++ (']' :: rest) from by
        simp [marshalElems]]
      unfold parseElems
      rw [hV]
      simp [skipWs]
    | cons e2 es2 =>
      have hfe : jfuel e ≤ f := by
        have := jfuel_pos e2
        have hp2 : 1 ≤ jfuelElems e2 es2 := by cases es2 <;> (simp only [jfuelElems]; omega)
        simp only [jfuelElems] at hf
        omega
      have hfe2 : jfuelElems e2 es2 ≤ f := by
        have := jfuel_pos e
        simp only [jfuelElems] at hf
        omega
      have hV := (ih f (by omega)).1 e (',' :: (marshalElems e2 es2 ++ (']' :: rest))) hfe
        (by rfl)
      have hE := (ih f (by omega)).2.1 e2 es2 rest hfe2
      rw [show marshalElems e (e2 :: es2) ++ (']' :: rest)
          = marshalJson e ++ (',' :: (marshalElems e2 es2 ++ (']' :: rest))) from by
        simp [marshalElems]]
      unfold parseElems
      rw [hV]
      simp only [Option.some_bind]
      rw [show skipWs (',' :: (marshalElems e2 es2 ++ (']' :: rest)))
          = ',' :: (marshalElems e2 es2 ++ (']' :: rest)) from
        skipWs_cons ',' _ (by decide) (by decide) (by decide) (by decide)]
      simp only [reduceIte]
      rw [hE]
      rfl
  · intro f1 fs rest hf
    obtain ⟨k, v⟩ := f1
    have hp : 1 ≤ jfuelFields (k, v) fs := by cases fs <;> (simp only [jfuelFields]; omega)
    obtain ⟨f, rfl⟩ : ∃ f, fuel = f + 1 := ⟨fuel - 1, by omega⟩
    cases fs with
    | nil =>
      have hfv : jfuel v ≤ f := by
        simp only [jfuelFields] at hf
        omega
      have hV := (ih f (by omega)).1 v ('}' :: rest) hfv (by rfl)
      rw [show marshalFields (k, v) [] ++ ('}' :: rest)
          = '"' :: (strEscape k.data ++ ('"' :: (':' :: (marshalJson v ++ ('}' :: rest)))))
        from by simp [marshalFields, marshalString]]
      unfold parseFields
      rw [skipWs_cons '"' _ (by decide) (by decide) (by decide) (by decide)]
      simp only [reduceIte]
      rw [parseStringBody_escape k.data (':' :: (marshalJson v ++ ('}' :: rest)))]
      simp only [Option.some_bind]
      rw [show skipWs (':' :: (marshalJson v ++ ('}' :: rest)))
          = ':' :: (marshalJson v ++ ('}' :: rest)) from
        skipWs_cons ':' _ (by decide) (by decide) (by decide) (by decide)]
      simp only [reduceIte]
      rw [hV]
      simp [skipWs]
    | cons f2 fs2 =>
      have hfv : jfuel v ≤ f := by
        obtain ⟨k2, v2⟩ := f2
        have hp2 : 1 ≤ jfuelFields (k2, v2) fs2 := by cases fs2 <;> (simp only [jfuelFields]; omega)
        simp only [jfuelFields] at hf
        omega
      have hff : jfuelFields f2 fs2 ≤ f := by
        have := jfuel_pos v
        simp only [jfuelFields] at hf
        omega
      have hV := (ih f (by omega)).1 v
        (',' :: (marshalFields f2 fs2 ++ ('}' :: rest))) hfv (by rfl)
      have hF := (ih f (by omega)).2.2 f2 fs2 rest hff
      rw [show marshalFields (k, v) (f2 :: fs2) ++ ('}' :: rest)
          = '"' :: (strEscape k.data ++ ('"' :: (':' :: (marshalJson v
              ++ (',' :: (marshalFields f2 fs2 ++ ('}' :: rest)))))))
        from by simp [marshalFields, marshalString]]
      unfold parseFields
      rw [skipWs_cons '"' _ (by decide) (by decide) (by decide) (by decide)]
      simp only [reduceIte]
      rw [parseStringBody_escape k.data
        (':' :: (marshalJson v ++ (',' :: (marshalFields f2 fs2 ++ ('}' :: rest)))))]
      simp only [Option.some_bind]
      rw [show skipWs (':' :: (marshalJson v ++ (',' :: (marshalFields f2 fs2
              ++ ('}' :: rest)))))
          = ':' :: (marshalJson v ++ (',' :: (marshalFields f2 fs2 ++ ('}' :: rest)))) from
        skipWs_cons ':' _ (by decide) (by decide) (by decide) (by decide)]
      simp only [reduceIte]
      rw [hV]
      simp only [Option.some_bind]
      rw [show skipWs (',' :: (marshalFields f2 fs2 ++ ('}' :: rest)))
          = ',' :: (marshalFields f2 fs2 ++ ('}' :: rest)) from
        skipWs_cons ',' _ (by decide) (by decide) (by decide) (by decide)]
      simp only [reduceIte]
      rw [hF]
      rfl

theorem buildMessage_msgFields (m : Message) : buildMessage (msgFields m) = some m := by
  obtain ⟨n, o, a, r, q, st⟩ := m
  by_cases h1 : q = 0 <;> by_cases h2 : st = "" <;>
    simp [msgFields, buildMessage, getField, jsonToStrField, jsonToIntField, h1, h2]

theorem unmarshalMessage_marshalMessage (m : Message) :
    unmarshalMessage (marshalMessage m) = some m := by
  have hle : jfuel (JsonValue.obj (msgFields m)) ≤ (marshalMessage m).length + 1 := by
    have h := jfuel_le_len (JsonValue.obj (msgFields m))
    have hmm : marshalMessage m = marshalJson (JsonValue.obj (msgFields m)) := rfl
    rw [hmm]
    omega
  have h := (parse_marshal ((marshalMessage m).length + 1)).1
    (JsonValue.obj (msgFields m)) [] hle rfl
  rw [List.append_nil] at h
  rw [show marshalJson (JsonValue.obj (msgFields m)) = marshalMessage m from rfl] at h
  rw [unmarshalMessage, h]
  simp [skipWs, buildMessage_msgFields]

theorem splitOnChar_sentinel (xs rest : List Char) (h : '$' ∉ xs) :
    splitOnChar '$' (xs ++ ('$' :: rest)) = xs :: splitOnChar '$' rest := by
  induction xs with
  | nil => simp [splitOnChar]
  | cons x xs ih =>
    have hx : ¬ x = '$' := by
      intro he
      exact h (by simp [he])
    have h2 : '$' ∉ xs := fun hm => h (by simp [hm])
    rw [List.cons_append, splitOnChar, if_neg hx, ih h2]

theorem parseMessages_eq_filterMap (buffer : List Char) :
    parseMessages buffer = (splitOnChar '$' buffer).filterMap specFrameAccept := by
  rw [parseMessages]
  generalize splitOnChar '$' buffer = parts
  suffices h : ∀ (parts : List (List Char)) (acc : List Message),
      List.foldl (fun msgs part =>
        match part with
        | '!' :: jsonStr =>
          match unmarshalMessage jsonStr with
          | some msg => msgs ++ [msg]
          | none => msgs
        | _ => msgs) acc parts = acc ++ parts.filterMap specFrameAccept by
    simpa using h parts []
  intro parts
  induction parts with
  | nil => intro acc; simp
  | cons p parts ih =>
    intro acc
    rw [List.foldl_cons, List.filterMap_cons]
    cases p with
    | nil => simpa [specFrameAccept] using ih acc
    | cons c j =>
      by_cases hc : c = '!'
      · subst hc
        cases hj : unmarshalMessage j with
        | none => simpa [specFrameAccept, hj] using ih acc
        | some msg => simpa [specFrameAccept, hj] using ih (acc ++ [msg])
      · simpa [specFrameAccept, hc] using ih acc

theorem parseMessages_nil : parseMessages [] = [] := by
  rw [parseMessages_eq_filterMap]
  simp [splitOnChar, specFrameAccept]

theorem parseMessages_frame (body tail : List Char) (h : '$' ∉ body) :
    parseMessages (('!' :: body) ++ ('$' :: tail))
      = (unmarshalMessage body).toList ++ parseMessages tail := by
  rw [parseMessages_eq_filterMap, parseMessages_eq_filterMap]
  have hnotin : '$' ∉ ('!' :: body) := by
    intro hm
    rcases List.mem_cons.mp hm with h1 | h1
    · exact absurd h1 (by decide)
    · exact h h1
  rw [splitOnChar_sentinel _ _ hnotin, List.filterMap_cons]
  cases hj : unmarshalMessage body with
  | none => simp [specFrameAccept, hj]
  | some msg => simp [specFrameAccept, hj]

theorem marshalMessage_exON :
    marshalMessage
      { nodeid := "5", opcode := "SWITCH", arg := JsonValue.str "ON",
        requester := "HJ_Server", reqId := 0, status := "" }
      = ("\x7b\"nodeid\":\"5\",\"opcode\":\"SWITCH\",\"arg\":\"ON\","
          ++ "\"requester\":\"HJ_Server\"\x7d").data := by
  simp [marshalMessage, msgFields, marshalJson, marshalFields, marshalString, strEscape,
    escapeChar]

theorem marshalMessage_exCLOSE :
    marshalMessage
      { nodeid := "7", opcode := "SWITCH", arg := JsonValue.str "CLOSE",
        requester := "HJ_Server", reqId := 0, status := "" }
      = ("\x7b\"nodeid\":\"7\",\"opcode\":\"SWITCH\",\"arg\":\"CLOSE\","
          ++ "\"requester\":\"HJ_Server\"\x7d").data := by
  simp [marshalMessage, msgFields, marshalJson, marshalFields, marshalString, strEscape,
    escapeChar]

theorem marshalMessage_exDollar :
    marshalMessage
      { nodeid := "5", opcode := "SWITCH", arg := JsonValue.str "$",
        requester := "HJ_Server", reqId := 0, status := "" }
      = ("\x7b\"nodeid\":\"5\",\"opcode\":\"SWITCH\",\"arg\":\"$\","
          ++ "\"requester\":\"HJ_Server\"\x7d").data := by
  simp [marshalMessage, msgFields, marshalJson, marshalFields, marshalString, strEscape,
    escapeChar]

/-- C5 counterexample: a SWITCH message whose string argument is the
sentinel byte `$` matches its opcode's expected shape, yet decoding its
encoding yields no message at all — the unescaped `$` inside the JSON
body splits the frame early. -/
theorem C5_counterexample :
    parseMessages (sendMessage
      { nodeid := "5", opcode := "SWITCH", arg := JsonValue.str "$",
        requester := "HJ_Server", reqId := 0, status := "" })
      ≠ [{ nodeid := "5", opcode := "SWITCH", arg := JsonValue.str "$",
           requester := "HJ_Server", reqId := 0, status := "" }] := by
  rw [show sendMessage
        { nodeid := "5", opcode := "SWITCH", arg := JsonValue.str "$",
          requester := "HJ_Server", reqId := 0, status := "" }
      = '!' :: (marshalMessage
        { nodeid := "5", opcode := "SWITCH", arg := JsonValue.str "$",
          requester := "HJ_Server", reqId := 0, status := "" } ++ ['$']) from rfl,
    marshalMessage_exDollar]
  decide

/-- C5 (amended): the codec round-trips except when the serialized body
contains the trailing sentinel byte `$` (an inherited risk of the wire
format): for every message whose serialized body is `$`-free, decoding
the encoding yields exactly that message; and every well-formed frame
`!body$` with a `$`-free body that parses as a message `m` decodes to
`[m]`, and re-encoding `m` gives a frame that decodes to the same `[m]`
provided `m`'s own serialization is also `$`-free. -/
theorem C5_codec_roundtrip :
    (∀ m : Message, '$' ∉ marshalMessage m → parseMessages (sendMessage m) = [m])
    ∧ (∀ (body : List Char) (m : Message), '$' ∉ body →
        unmarshalMessage body = some m → '$' ∉ marshalMessage m →
        parseMessages ('!' :: (body ++ ['$'])) = [m]
          ∧ parseMessages (sendMessage m) = [m]) := by
  have hsingle : ∀ m : Message, '$' ∉ marshalMessage m →
      parseMessages (sendMessage m) = [m] := by
    intro m hm
    rw [show sendMessage m = ('!' :: marshalMessage m) ++ ('$' :: []) from by
      simp [sendMessage]]
    rw [parseMessages_frame _ _ hm, unmarshalMessage_marshalMessage, parseMessages_nil]
    rfl
  refine ⟨hsingle, ?_⟩
  intro body m hb hbody hm
  constructor
  · rw [show ('!' :: (body ++ ['$'])) = ('!' :: body) ++ ('$' :: []) from by simp]
    rw [parseMessages_frame _ _ hb, hbody, parseMessages_nil]
    rfl
  · exact hsingle m hm

/-- C5 witness: the round-trip theorem applied to a concrete SWITCH
report frame. -/
theorem C5_witness :
    parseMessages ('!' :: (("\x7b\"nodeid\":\"5\",\"opcode\":\"SWITCH\",\"arg\":\"ON\","
          ++ "\"requester\":\"HJ_Server\"\x7d").data ++ ['$']))
      = [{ nodeid := "5", opcode := "SWITCH", arg := JsonValue.str "ON",
           requester := "HJ_Server", reqId := 0, status := "" }]
    ∧ parseMessages (sendMessage
        { nodeid := "5", opcode := "SWITCH", arg := JsonValue.str "ON",
          requester := "HJ_Server", reqId := 0, status := "" })
      = [{ nodeid := "5", opcode := "SWITCH", arg := JsonValue.str "ON",
           requester := "HJ_Server", reqId := 0, status := "" }] :=
  C5_codec_roundtrip.2
    ("\x7b\"nodeid\":\"5\",\"opcode\":\"SWITCH\",\"arg\":\"ON\","
        ++ "\"requester\":\"HJ_Server\"\x7d").data
    { nodeid := "5", opcode := "SWITCH", arg := JsonValue.str "ON",
      requester := "HJ_Server", reqId := 0, status := "" }
    (by decide) (by decide) (by rw [marshalMessage_exON]; decide)

/-- C9: the decoder accepts, among the fragments obtained by splitting
the buffer on `$`, exactly those that begin with `!` and whose remainder
unmarshals as a message body — malformed fragments are silently dropped,
no error value exists — and a buffer of several concatenated well-formed
frames yields all their messages in order. -/
theorem C9_decoder_leniency :
    (∀ buffer : List Char,
      parseMessages buffer = (splitOnChar '$' buffer).filterMap specFrameAccept)
    ∧ (∀ ms : List Message, (∀ m ∈ ms, '$' ∉ marshalMessage m) →
      parseMessages (List.flatten (ms.map sendMessage)) = ms) := by
  refine ⟨parseMessages_eq_filterMap, ?_⟩
  intro ms h
  induction ms with
  | nil => simpa using parseMessages_nil
  | cons m ms ih =>
    have hm := h m (by simp)
    have h2 : ∀ m2 ∈ ms, '$' ∉ marshalMessage m2 := fun m2 hm2 => h m2 (by simp [hm2])
    rw [List.map_cons, List.flatten_cons]
    rw [show sendMessage m ++ List.flatten (ms.map sendMessage)
        = ('!' :: marshalMessage m) ++ ('$' :: List.flatten (ms.map sendMessage)) from by
      simp [sendMessage]]
    rw [parseMessages_frame _ _ hm, unmarshalMessage_marshalMessage, ih h2]
    rfl

/-- C9 witness: a buffer holding two concatenated frames decodes to
both messages in order. -/
theorem C9_witness :
    parseMessages (List.flatten
      (([{ nodeid := "5", opcode := "SWITCH", arg := JsonValue.str "ON",
           requester := "HJ_Server", reqId := 0, status := "" },
         { nodeid := "7", opcode := "SWITCH", arg := JsonValue.str "CLOSE",
           requester := "HJ_Server", reqId := 0, status := "" }] : List Message).map
        sendMessage))
      = [{ nodeid := "5", opcode := "SWITCH", arg := JsonValue.str "ON",
           requester := "HJ_Server", reqId := 0, status := "" },
         { nodeid := "7", opcode := "SWITCH", arg := JsonValue.str "CLOSE",
           requester := "HJ_Server", reqId := 0, status := "" }] :=
  C9_decoder_leniency.2
    [{ nodeid := "5", opcode := "SWITCH", arg := JsonValue.str "ON",
       requester := "HJ_Server", reqId := 0, status := "" },
     { nodeid := "7", opcode := "SWITCH", arg := JsonValue.str "CLOSE",
       requester := "HJ_Server", reqId := 0, status := "" }]
    (by
      intro m hm
      rcases List.mem_cons.mp hm with rfl | hm2
      · rw [marshalMessage_exON]; decide
      · rcases List.mem_cons.mp hm2 with rfl | hm3
        · rw [marshalMessage_exCLOSE]; decide
        · exact absurd hm3 (by simp))
